import Mathlib

/-!
Verification of the gotion CLI (main.go).

We give a shallow embedding of the functions `cleanDatabaseID`,
`isValidUUID` and `convertToNotionProperties`, and of the `insert`
command's validation-and-submission pipeline, and prove the spec's
claims about them.

Strings are modelled as lists of characters.  All inputs the claims
range over are ASCII, so Go's byte indexing and slicing agree with
character indexing and no fidelity is lost.
-/

namespace Gotion

/-! ## List utilities mirroring the Go standard library pieces used -/

/-- Models Go `strings.Split(s, sep)` for a one-character separator:
the list of maximal separator-free segments (always nonempty). -/
def splitOnChar (sep : Char) : List Char → List (List Char)
  | [] => [[]]
  | c :: cs =>
    let rest := splitOnChar sep cs
    if c = sep then [] :: rest
    else
      match rest with
      | r :: rs => (c :: r) :: rs
      | [] => [[c]]

/-- Models `parts[len(parts)-1]` after `strings.Split(input, "/")`:
the trailing path segment of the string. -/
def lastSegment (s : List Char) : List Char :=
  (splitOnChar '/' s).getLastD []

/-- Models Go `strings.HasPrefix`. -/
def listStartsWith : List Char → List Char → Bool
  | [], _ => true
  | _ :: _, [] => false
  | p :: ps, c :: cs => p = c && listStartsWith ps cs

/-- Models Go `strings.Contains s pat`: `pat` occurs as a contiguous
substring of `s`. -/
def listContainsSeq (pat : List Char) : List Char → Bool
  | [] => listStartsWith pat []
  | c :: cs => listStartsWith pat (c :: cs) || listContainsSeq pat cs

/-! ## Database-identifier normalization (`isValidUUID`, `cleanDatabaseID`) -/

/-- Character class `[a-fA-F0-9]` of the Go regexes. -/
def isHexChar (c : Char) : Bool :=
  c.isDigit || ('a' ≤ c && c ≤ 'f') || ('A' ≤ c && c ≤ 'F')

/-- Run of exactly `n` hex characters (one dash-separated group of the
UUID regex). -/
def hexRun (n : Nat) (s : List Char) : Bool :=
  s.length == n && s.all isHexChar

/-- Models the Go regex `^[a-fA-F0-9]{8}-[a-fA-F0-9]{4}-[a-fA-F0-9]{4}-[a-fA-F0-9]{4}-[a-fA-F0-9]{12}$`
of `isValidUUID`.  Since a hex run never contains a dash, the anchored
regex matches exactly when splitting on dashes yields five hex groups of
lengths 8, 4, 4, 4, 12. -/
def isValidUUID (s : List Char) : Bool :=
  match splitOnChar '-' s with
  | [a, b, c, d, e] =>
    hexRun 8 a && hexRun 4 b && hexRun 4 c && hexRun 4 d && hexRun 12 e
  | _ => false

/-- Models the Go regex `^[a-fA-F0-9]{32}$` used by `cleanDatabaseID`. -/
def isHex32 (s : List Char) : Bool :=
  s.length == 32 && s.all isHexChar

/-- Models the dash insertion
`fmt.Sprintf("%s-%s-%s-%s-%s", input[0:8], input[8:12], input[12:16], input[16:20], input[20:32])`. -/
def insertDashes (s : List Char) : List Char :=
  s.take 8 ++ '-' :: ((s.drop 8).take 4) ++ '-' :: ((s.drop 12).take 4)
    ++ '-' :: ((s.drop 16).take 4) ++ '-' :: ((s.drop 20).take 12)

/-- The literal `"notion.so"` tested by `strings.Contains`. -/
def notionSoKey : List Char := "notion.so".toList

/-- Fuel-indexed embedding of the self-recursive Go function
`cleanDatabaseID`.  The Go recursion is not structurally decreasing
(the recursive call is on the trailing path segment, which can equal
the input itself), so we index by fuel; `none` means the Go function
does not return within the given number of unfoldings. -/
def cleanDatabaseIDFuel : Nat → List Char → Option (List Char)
  | 0, _ => none
  | n + 1, input =>
    if input.contains '-' then some input
    else if isHex32 input then some (insertDashes input)
    else if listContainsSeq notionSoKey input then
      let lastPart := lastSegment input
      if 32 ≤ lastPart.length then cleanDatabaseIDFuel n lastPart
      else some input
    else some input

/-- Embedding of Go `cleanDatabaseID`.  Fuel 3 is adequate: the first
recursive call passes the trailing `/`-segment, which contains no `/`,
and from then on the argument is fixed — so the Go function either
returns within three unfoldings or recurses forever (`none`).
`cleanDatabaseIDFuel_stable` below proves the adequacy of this bound. -/
def cleanDatabaseID (input : List Char) : Option (List Char) :=
  cleanDatabaseIDFuel 3 input

/-! ### Lemmas about the splitter and the normalizer -/

theorem splitOnChar_ne_nil (sep : Char) (s : List Char) :
    splitOnChar sep s ≠ [] := by
  induction s with
  | nil => simp [splitOnChar]
  | cons c cs ih =>
    simp only [splitOnChar]
    split
    · simp
    · match h : splitOnChar sep cs with
      | [] => exact absurd h ih
      | r :: rs => simp

theorem splitOnChar_of_not_contains (sep : Char) (s : List Char)
    (h : s.contains sep = false) : splitOnChar sep s = [s] := by
  induction s with
  | nil => rfl
  | cons c cs ih =>
    simp only [List.contains_cons, Bool.or_eq_false_iff, beq_eq_false_iff_ne] at h
    simp only [splitOnChar, if_neg (Ne.symm h.1), ih h.2]

theorem splitOnChar_append (sep : Char) (l r : List Char)
    (h : l.contains sep = false) :
    splitOnChar sep (l ++ sep :: r) = l :: splitOnChar sep r := by
  induction l with
  | nil => simp [splitOnChar]
  | cons c cs ih =>
    simp only [List.contains_cons, Bool.or_eq_false_iff, beq_eq_false_iff_ne] at h
    simp only [List.cons_append, splitOnChar, if_neg (Ne.symm h.1), List.append_eq, ih h.2]

theorem mem_splitOnChar_not_contains (sep : Char) (s : List Char) :
    ∀ p ∈ splitOnChar sep s, p.contains sep = false := by
  induction s with
  | nil => intro p hp; simp [splitOnChar] at hp; simp [hp]
  | cons c cs ih =>
    intro p hp
    simp only [splitOnChar] at hp
    by_cases hc : c = sep
    · rw [if_pos hc] at hp
      rcases List.mem_cons.mp hp with h | h
      · simp [h]
      · exact ih p h
    · rw [if_neg hc] at hp
      match hrest : splitOnChar sep cs with
      | [] => exact absurd hrest (splitOnChar_ne_nil sep cs)
      | r :: rs =>
        rw [hrest] at hp
        rcases List.mem_cons.mp hp with h | h
        · subst h
          have hr : r.contains sep = false := ih r (by rw [hrest]; exact List.mem_cons_self r rs)
          simp only [List.contains_cons, Bool.or_eq_false_iff, beq_eq_false_iff_ne]
          exact ⟨Ne.symm hc, hr⟩
        · exact ih p (by rw [hrest]; exact List.mem_cons_of_mem r h)

theorem getLastD_mem {α : Type} (l : List α) (d : α) (h : l ≠ []) :
    l.getLastD d ∈ l := by
  induction l with
  | nil => exact absurd rfl h
  | cons a as ih =>
    cases as with
    | nil => simp [List.getLastD]
    | cons b bs =>
      have := ih (by simp)
      simp only [List.getLastD] at this ⊢
      exact List.mem_cons_of_mem a this

theorem lastSegment_not_contains_slash (s : List Char) :
    (lastSegment s).contains '/' = false := by
  unfold lastSegment
  exact mem_splitOnChar_not_contains '/' s _
    (getLastD_mem _ _ (splitOnChar_ne_nil '/' s))

theorem lastSegment_of_no_slash (s : List Char) (h : s.contains '/' = false) :
    lastSegment s = s := by
  unfold lastSegment
  rw [splitOnChar_of_not_contains '/' s h]
  rfl

theorem cleanDatabaseIDFuel_succ (n : Nat) (input : List Char) :
    cleanDatabaseIDFuel (n + 1) input =
      if input.contains '-' then some input
      else if isHex32 input then some (insertDashes input)
      else if listContainsSeq notionSoKey input then
        if 32 ≤ (lastSegment input).length then
          cleanDatabaseIDFuel n (lastSegment input)
        else some input
      else some input := rfl

theorem cleanDatabaseIDFuel_no_slash (t : List Char)
    (h : t.contains '/' = false) (n : Nat) :
    cleanDatabaseIDFuel (n + 1) t = cleanDatabaseIDFuel 1 t := by
  induction n with
  | zero => rfl
  | succ n ih =>
    rw [cleanDatabaseIDFuel_succ (n + 1) t, cleanDatabaseIDFuel_succ 0 t,
      lastSegment_of_no_slash t h]
    split_ifs with h1 h2 h3 h4 <;> try rfl
    rw [ih, cleanDatabaseIDFuel_succ 0 t, lastSegment_of_no_slash t h,
      if_neg h1, if_neg h2, if_pos h3, if_pos h4]

/-- Fuel 3 in `cleanDatabaseID` is adequate: more fuel never changes the
answer. -/
theorem cleanDatabaseIDFuel_stable (input : List Char) (n : Nat) :
    cleanDatabaseIDFuel (n + 3) input = cleanDatabaseID input := by
  rw [cleanDatabaseID]
  rw [show n + 3 = (n + 2) + 1 from rfl, cleanDatabaseIDFuel_succ (n + 2) input,
    cleanDatabaseIDFuel_succ 2 input]
  split_ifs with h1 h2 h3 h4 <;> try rfl
  have hseg := lastSegment_not_contains_slash input
  rw [show n + 2 = (n + 1) + 1 from rfl,
    cleanDatabaseIDFuel_no_slash _ hseg (n + 1),
    show (2 : Nat) = 1 + 1 from rfl, cleanDatabaseIDFuel_no_slash _ hseg 1]

/-! ## Data model for records, schemas and coerced properties -/

/-- Dynamically-typed JSON value, as Go `encoding/json` produces into an
`interface\x7b\x7d`.  Numbers are modelled as rationals: the coercer only
inspects the dynamic type tag and carries numeric values through
unchanged, so no floating-point arithmetic is involved.  Object fields
are an association list. -/
inductive JSONValue : Type where
  | str (s : List Char)
  | num (x : Rat)
  | boolean (b : Bool)
  | null
  | arr (elems : List JSONValue)
  | obj (fields : List (List Char × JSONValue))

/-- A single rich-text run, `notionapi.RichText` with `Text.Content` set. -/
structure RichTextRun : Type where
  content : List Char

/-- The three Notion property payloads `convertToNotionProperties` can
build: `TitleProperty`, `RichTextProperty`, `NumberProperty`. -/
inductive NotionProperty : Type where
  | title (runs : List RichTextRun)
  | richText (runs : List RichTextRun)
  | number (x : Rat)

/-- Column type tags of `notionapi.PropertyConfigType`, the result of
`schemaProp.GetType()`; `other` covers any tag not explicitly named. -/
inductive PropertyConfigType : Type where
  | title
  | richText
  | number
  | select
  | multiSelect
  | date
  | people
  | files
  | checkbox
  | url
  | email
  | phoneNumber
  | formula
  | relation
  | rollup
  | other (tag : List Char)
deriving DecidableEq

/-- The slice of `notionapi.Database` the converter consumes: its
`Properties` map from column name to column type.  Go maps are modelled
as association lists (Go map keys are necessarily distinct). -/
structure Database : Type where
  properties : List (List Char × PropertyConfigType)

/-- Raw record: Go `RawPageData = map[string]interface\x7b\x7d`. -/
def RawPageData : Type := List (List Char × JSONValue)

/-- Result record: the `Properties` map of Go `PageData`. -/
structure PageData : Type where
  properties : List (List Char × NotionProperty)

/-- Go map lookup `m[k]` on an association list. -/
def lookupKey {β : Type} (k : List Char) : List (List Char × β) → Option β
  | [] => none
  | (k2, v) :: rest => if k = k2 then some v else lookupKey k rest

/-- Go map assignment `m[k] = v`: replace the binding if present, else
append a fresh one. -/
def setProp {β : Type} : List (List Char × β) → List Char → β → List (List Char × β)
  | [], k, v => [(k, v)]
  | (k2, v2) :: rest, k, v =>
    if k = k2 then (k, v) :: rest else (k2, v2) :: setProp rest k v

/-- Number of entries an association list holds under key `k`. -/
def countKey {β : Type} (k : List Char) (m : List (List Char × β)) : Nat :=
  (m.filter fun p => p.1 == k).length

/-- One arm of the `switch schemaProp.GetType()` in
`convertToNotionProperties`: the property built for a value under a given
column type.  `none` when the `default:` arm skips the type or the value
type assertion fails and `notionProp` stays nil. -/
def coerceField : PropertyConfigType → JSONValue → Option NotionProperty
  | .title, .str s => some (.title [⟨s⟩])
  | .richText, .str s => some (.richText [⟨s⟩])
  | .number, .num x => some (.number x)
  | _, _ => none

/-- Whether a value's dynamic JSON type matches what the column type's
switch arm asserts (string for Title/RichText, float64 for Number);
false on every column type without a switch arm. -/
def expectedMatch : PropertyConfigType → JSONValue → Bool
  | .title, .str _ => true
  | .richText, .str _ => true
  | .number, .num _ => true
  | _, _ => false

/-- The `for propName, propValue := range props` loop of
`convertToNotionProperties`, folding fields in list order into the
accumulated result map. -/
def convertLoop (schema : List (List Char × PropertyConfigType)) :
    List (List Char × NotionProperty) → List (List Char × JSONValue) →
    List (List Char × NotionProperty)
  | acc, [] => acc
  | acc, (name, v) :: rest =>
    match lookupKey name schema with
    | none => convertLoop schema acc rest
    | some cfg =>
      match coerceField cfg v with
      | none => convertLoop schema acc rest
      | some np => convertLoop schema (setProp acc name np) rest

/-- The key looked up by `raw["properties"]`. -/
def propertiesKey : List Char := "properties".toList

/-- The error text of the malformed-record branch (the Go message quotes
the word properties). -/
def malformedMsg : List Char :=
  "expected key properties in data, got none".toList

/-- Embedding of Go
`convertToNotionProperties(raw RawPageData, schema notionapi.Database) (PageData, error)`:
first component the built `PageData`, second the returned error
(`none` = nil error). -/
def convertToNotionProperties (raw : RawPageData) (schema : Database) :
    PageData × Option (List Char) :=
  match lookupKey propertiesKey raw with
  | some (.obj props) => (⟨convertLoop schema.properties [] props⟩, none)
  | _ => (⟨[]⟩, some malformedMsg)

/-- Whether the loop produces a coerced entry for one field: the schema
lookup succeeds and the switch arm accepts the value. -/
def fieldProduces (schema : List (List Char × PropertyConfigType))
    (p : List Char × JSONValue) : Bool :=
  match lookupKey p.1 schema with
  | none => false
  | some cfg => (coerceField cfg p.2).isSome

/-- Modelled from the spec: the contract
`coerce(raw, schema) -> (CoercedRecord, droppedFieldCount)` names a count
of dropped fields that the Go function does not itself return; following
the spec wording, it is the number of fields of the nested field-map for
which the loop produces no coerced entry (schema miss, missing switch
arm, or failed type assertion). -/
def droppedFieldCount (schema : List (List Char × PropertyConfigType))
    (props : List (List Char × JSONValue)) : Nat :=
  (props.filter fun p => !fieldProduces schema p).length

/-! ## The insert command pipeline -/

/-- Outcome-relevant inputs of one `gotion insert` invocation: the flag
values, the environment variable fallback, the combined result of the
data-file read and JSON parse (`none` = read or parse failure, each of
which exits 1), and the schema fetch result (`none` = API error). -/
structure InsertEnv : Type where
  dbID : List Char
  dataFile : List Char
  apiKeyFlag : List Char
  envKey : List Char
  parsedData : Option (List RawPageData)
  schemaFetch : Option Database

/-- Observable outcome of a run: the process exit code, the indices of
the converted records for which a Page.Create call was issued, in order,
and the count of successful submissions. -/
structure RunResult : Type where
  exitCode : Nat
  attempted : List Nat
  successCount : Nat

/-- The `for i, pageData := range pagesData` submission loop: every
record is attempted; a failed create only skips the success counter. -/
def submitLoop (submitOk : Nat → Bool) : Nat → List PageData → Nat × List Nat
  | _, [] => (0, [])
  | i, _ :: rest =>
    let r := submitLoop submitOk (i + 1) rest
    if submitOk i then (r.1 + 1, i :: r.2) else (r.1, i :: r.2)

/-- The records surviving per-record conversion (a conversion error hits
`continue` and the record never reaches `pagesData`). -/
def pagesOf (db : Database) (rawData : List RawPageData) : List PageData :=
  rawData.filterMap fun r =>
    let c := convertToNotionProperties r db
    if c.2.isNone then some c.1 else none

/-- Embedding of the `insert` command's Run function: flag validation,
identifier normalization and check, credential lookup (flag before
environment), file read/parse, schema fetch, conversion, submission
loop.  `submitOk i` abstracts the outcome of the Page.Create call for
the i-th converted record.  The result is `none` exactly when
`cleanDatabaseID` diverges, in which case the process never returns. -/
def insertRun (env : InsertEnv) (submitOk : Nat → Bool) : Option RunResult :=
  if env.dbID = [] ∨ env.dataFile = [] then some ⟨1, [], 0⟩
  else
    match cleanDatabaseID env.dbID with
    | none => none
    | some d =>
      if isValidUUID d = false then some ⟨1, [], 0⟩
      else
        let apiKey := if env.apiKeyFlag = [] then env.envKey else env.apiKeyFlag
        if apiKey = [] then some ⟨1, [], 0⟩
        else
          match env.parsedData with
          | none => some ⟨1, [], 0⟩
          | some rawData =>
            match env.schemaFetch with
            | none => some ⟨1, [], 0⟩
            | some db =>
              let r := submitLoop submitOk 0 (pagesOf db rawData)
              some ⟨0, r.2, r.1⟩

/-! ## Lemmas about maps and the conversion loop -/

theorem lookupKey_setProp {β : Type} (m : List (List Char × β))
    (k k2 : List Char) (v : β) :
    lookupKey k (setProp m k2 v) = if k = k2 then some v else lookupKey k m := by
  induction m with
  | nil => by_cases hk : k = k2 <;> simp [setProp, lookupKey, hk]
  | cons p rest ih =>
    obtain ⟨k3, v3⟩ := p
    by_cases h : k2 = k3
    · subst h
      by_cases hk : k = k2 <;> simp [setProp, lookupKey, hk]
    · by_cases hk : k = k3
      · subst hk
        have hkk2 : ¬k = k2 := fun e => h e.symm
        simp [setProp, h, lookupKey, hkk2]
      · simp [setProp, h, lookupKey, hk, ih]

theorem convertLoop_append (schema : List (List Char × PropertyConfigType))
    (xs ys : List (List Char × JSONValue)) :
    ∀ acc, convertLoop schema acc (xs ++ ys) =
      convertLoop schema (convertLoop schema acc xs) ys := by
  induction xs with
  | nil => intro acc; rfl
  | cons p rest ih =>
    obtain ⟨name, v⟩ := p
    intro acc
    simp only [List.cons_append, convertLoop]
    split
    · exact ih acc
    · split
      · exact ih acc
      · exact ih _

theorem convertLoop_lookup_not_mem (schema : List (List Char × PropertyConfigType))
    (l : List (List Char × JSONValue)) (name : List Char) :
    ∀ acc, ¬name ∈ l.map Prod.fst →
      lookupKey name (convertLoop schema acc l) = lookupKey name acc := by
  induction l with
  | nil => intro acc _; rfl
  | cons p rest ih =>
    obtain ⟨k, v⟩ := p
    intro acc h
    simp only [List.map_cons, List.mem_cons, not_or] at h
    simp only [convertLoop]
    split
    · exact ih acc h.2
    · split
      · exact ih acc h.2
      · rw [ih _ h.2, lookupKey_setProp, if_neg h.1]

/-- Keys of an association list have no duplicates (true of every Go map). -/
abbrev keysNodup {β : Type} (m : List (List Char × β)) : Prop :=
  (m.map Prod.fst).Nodup

theorem mem_keys_setProp {β : Type} (m : List (List Char × β))
    (k : List Char) (v : β) (a : List Char) :
    a ∈ (setProp m k v).map Prod.fst → a = k ∨ a ∈ m.map Prod.fst := by
  induction m with
  | nil =>
    intro h
    simp [setProp] at h
    exact Or.inl h
  | cons p rest ih =>
    obtain ⟨k2, v2⟩ := p
    intro h
    by_cases hk : k = k2
    · subst hk
      rw [show setProp ((k, v2) :: rest) k v = (k, v) :: rest from by
        simp [setProp]] at h
      simp only [List.map_cons, List.mem_cons] at h
      rcases h with h | h
      · exact Or.inl h
      · exact Or.inr (List.mem_cons_of_mem _ h)
    · rw [show setProp ((k2, v2) :: rest) k v = (k2, v2) :: setProp rest k v from by
        simp [setProp, hk]] at h
      simp only [List.map_cons, List.mem_cons] at h
      rcases h with h | h
      · exact Or.inr (List.mem_cons.mpr (Or.inl h))
      · rcases ih h with h2 | h2
        · exact Or.inl h2
        · exact Or.inr (List.mem_cons_of_mem _ h2)

theorem keysNodup_setProp {β : Type} (m : List (List Char × β))
    (k : List Char) (v : β) : keysNodup m → keysNodup (setProp m k v) := by
  induction m with
  | nil =>
    intro _
    simp [setProp, keysNodup]
  | cons p rest ih =>
    obtain ⟨k2, v2⟩ := p
    intro h
    simp only [keysNodup, List.map_cons, List.nodup_cons] at h
    by_cases hk : k = k2
    · subst hk
      rw [show setProp ((k, v2) :: rest) k v = (k, v) :: rest from by
        simp [setProp]]
      simp only [keysNodup, List.map_cons, List.nodup_cons]
      exact h
    · rw [show setProp ((k2, v2) :: rest) k v = (k2, v2) :: setProp rest k v from by
        simp [setProp, hk]]
      simp only [keysNodup, List.map_cons, List.nodup_cons]
      refine ⟨fun hmem => ?_, ih h.2⟩
      rcases mem_keys_setProp rest k v k2 hmem with e | e
      · exact hk e.symm
      · exact h.1 e

theorem keysNodup_convertLoop (schema : List (List Char × PropertyConfigType))
    (l : List (List Char × JSONValue)) :
    ∀ acc, keysNodup acc → keysNodup (convertLoop schema acc l) := by
  induction l with
  | nil => intro acc h; exact h
  | cons p rest ih =>
    obtain ⟨name, v⟩ := p
    intro acc h
    simp only [convertLoop]
    split
    · exact ih acc h
    · split
      · exact ih acc h
      · exact ih _ (keysNodup_setProp acc name _ h)

theorem countKey_eq_one_of_nodup {β : Type} (k : List Char)
    (m : List (List Char × β)) :
    ∀ v, keysNodup m → lookupKey k m = some v → countKey k m = 1 := by
  induction m with
  | nil =>
    intro v _ hl
    simp [lookupKey] at hl
  | cons p rest ih =>
    obtain ⟨k2, v2⟩ := p
    intro v hn hl
    simp only [keysNodup, List.map_cons, List.nodup_cons] at hn
    simp only [lookupKey] at hl
    by_cases hk : k = k2
    · subst hk
      have hempty : (rest.filter fun p => p.1 == k).length = 0 := by
        rw [List.length_eq_zero, List.filter_eq_nil_iff]
        intro p hp
        simp only [beq_iff_eq, Bool.not_eq_true]
        intro e
        exact absurd (e ▸ List.mem_map_of_mem Prod.fst hp) hn.1
      simp [countKey, List.filter_cons, hempty]
    · rw [if_neg hk] at hl
      have hbeq : ((k2, v2).1 == k) = false := by
        simp only [beq_eq_false_iff_ne, ne_eq]
        exact fun e => hk e.symm
      simp only [countKey, List.filter_cons, hbeq, cond_false]
      exact ih v hn.2 hl

theorem convertLoop_lookup_some (schema : List (List Char × PropertyConfigType))
    (l : List (List Char × JSONValue)) (k : List Char) (np : NotionProperty) :
    ∀ acc, lookupKey k (convertLoop schema acc l) = some np →
      (∃ np2, lookupKey k acc = some np2) ∨ ∃ t, lookupKey k schema = some t := by
  induction l with
  | nil => intro acc h; exact Or.inl ⟨np, h⟩
  | cons p rest ih =>
    obtain ⟨name, v⟩ := p
    intro acc h
    simp only [convertLoop] at h
    split at h
    · exact ih acc h
    · rename_i cfg hs
      split at h
      · exact ih acc h
      · rcases ih _ h with ⟨np3, hl⟩ | ht
        · rw [lookupKey_setProp] at hl
          by_cases hk : k = name
          · subst hk
            exact Or.inr ⟨cfg, hs⟩
          · rw [if_neg hk] at hl
            exact Or.inl ⟨np3, hl⟩
        · exact Or.inr ht

theorem submitLoop_attempted (submitOk : Nat → Bool) (l : List PageData) :
    ∀ i, (submitLoop submitOk i l).2 = List.range' i l.length := by
  induction l with
  | nil => intro i; rfl
  | cons p rest ih =>
    intro i
    simp only [submitLoop, List.length_cons, List.range']
    by_cases h : submitOk i <;> simp [h, ih (i + 1)]

/-! ## Lemmas about hex strings and substring containment -/

theorem contains_eq_false_of_all_hex (s : List Char) (c : Char)
    (hall : s.all isHexChar = true) (hc : isHexChar c = false) :
    s.contains c = false := by
  induction s with
  | nil => rfl
  | cons a as ih =>
    simp only [List.all_cons, Bool.and_eq_true] at hall
    simp only [List.contains_cons, Bool.or_eq_false_iff]
    refine ⟨?_, ih hall.2⟩
    simp only [beq_eq_false_iff_ne, ne_eq]
    intro e
    rw [e, hall.1] at hc
    exact Bool.noConfusion hc

theorem mem_of_listStartsWith (pat : List Char) (c : Char) :
    ∀ s, c ∈ pat → listStartsWith pat s = true → c ∈ s := by
  induction pat with
  | nil =>
    intro s hc _
    simp at hc
  | cons p ps ih =>
    intro s hc h
    cases s with
    | nil => simp [listStartsWith] at h
    | cons a as =>
      simp only [listStartsWith, Bool.and_eq_true, decide_eq_true_eq] at h
      rcases List.mem_cons.mp hc with e | e
      · subst e
        rw [h.1]
        exact List.mem_cons_self a as
      · exact List.mem_cons_of_mem a (ih as e h.2)

theorem mem_of_listContainsSeq (pat : List Char) (c : Char) (hc : c ∈ pat) :
    ∀ s, listContainsSeq pat s = true → c ∈ s := by
  intro s
  induction s with
  | nil =>
    intro h
    cases pat with
    | nil => simp at hc
    | cons p ps => simp [listContainsSeq, listStartsWith] at h
  | cons a as ih =>
    intro h
    simp only [listContainsSeq, Bool.or_eq_true] at h
    rcases h with h | h
    · exact mem_of_listStartsWith pat c (a :: as) hc h
    · exact List.mem_cons_of_mem a (ih h)

theorem isHex32_eq_false_of_mem (s : List Char) (c : Char) (hc : c ∈ s)
    (hhex : isHexChar c = false) : isHex32 s = false := by
  have hall : s.all isHexChar = false := by
    rw [Bool.eq_false_iff]
    intro hall
    have := List.all_eq_true.mp hall c hc
    rw [hhex] at this
    exact Bool.false_ne_true this
  simp [isHex32, hall]

/-- One-unfolding equation for `cleanDatabaseID` itself. -/
theorem cleanDatabaseID_eq (input : List Char) :
    cleanDatabaseID input =
      if input.contains '-' then some input
      else if isHex32 input then some (insertDashes input)
      else if listContainsSeq notionSoKey input then
        if 32 ≤ (lastSegment input).length then
          cleanDatabaseIDFuel 2 (lastSegment input)
        else some input
      else some input := rfl

/-! ## Claims about identifier normalization -/

/-- C7: for every 32-hex-digit identifier without dashes, normalization
inserts dashes at positions 8/12/16/20, producing a string in the
standard 8-4-4-4-12 UUID shape that passes `isValidUUID`. -/
theorem C7_hex32_normalized (s : List Char)
    (hlen : s.length = 32) (hhex : s.all isHexChar = true) :
    cleanDatabaseID s = some (insertDashes s) ∧
      isValidUUID (insertDashes s) = true := by
  have hsub : ∀ t : List Char, t ⊆ s → t.all isHexChar = true := fun t hts =>
    List.all_eq_true.mpr fun x hx => List.all_eq_true.mp hhex x (hts hx)
  have haa := hsub (s.take 8) (List.take_subset _ _)
  have hab := hsub ((s.drop 8).take 4)
    ((List.take_subset _ _).trans (List.drop_subset _ _))
  have hac := hsub ((s.drop 12).take 4)
    ((List.take_subset _ _).trans (List.drop_subset _ _))
  have had := hsub ((s.drop 16).take 4)
    ((List.take_subset _ _).trans (List.drop_subset _ _))
  have hae := hsub ((s.drop 20).take 12)
    ((List.take_subset _ _).trans (List.drop_subset _ _))
  have hdash : s.contains '-' = false :=
    contains_eq_false_of_all_hex s '-' hhex (by decide)
  have hhex32 : isHex32 s = true := by simp [isHex32, hlen, hhex]
  have hta : (s.take 8).length = 8 := by
    simp [List.length_take, hlen]
  have htb : ((s.drop 8).take 4).length = 4 := by
    simp [List.length_take, List.length_drop, hlen]
  have htc : ((s.drop 12).take 4).length = 4 := by
    simp [List.length_take, List.length_drop, hlen]
  have htd : ((s.drop 16).take 4).length = 4 := by
    simp [List.length_take, List.length_drop, hlen]
  have hte : ((s.drop 20).take 12).length = 12 := by
    simp [List.length_take, List.length_drop, hlen]
  have hda := contains_eq_false_of_all_hex _ '-' haa (by decide)
  have hdb := contains_eq_false_of_all_hex _ '-' hab (by decide)
  have hdc := contains_eq_false_of_all_hex _ '-' hac (by decide)
  have hdd := contains_eq_false_of_all_hex _ '-' had (by decide)
  have hde := contains_eq_false_of_all_hex _ '-' hae (by decide)
  constructor
  · rw [cleanDatabaseID_eq s, if_neg (by rw [hdash]; simp), if_pos hhex32]
  · have hshape : insertDashes s =
        s.take 8 ++ '-' :: ((s.drop 8).take 4 ++ '-' :: ((s.drop 12).take 4
          ++ '-' :: ((s.drop 16).take 4 ++ '-' :: (s.drop 20).take 12))) := by
      simp [insertDashes, List.append_assoc]
    have hsplit : splitOnChar '-' (insertDashes s) =
        [s.take 8, (s.drop 8).take 4, (s.drop 12).take 4, (s.drop 16).take 4,
          (s.drop 20).take 12] := by
      rw [hshape, splitOnChar_append '-' _ _ hda, splitOnChar_append '-' _ _ hdb,
        splitOnChar_append '-' _ _ hdc, splitOnChar_append '-' _ _ hdd,
        splitOnChar_of_not_contains '-' _ hde]
    unfold isValidUUID
    rw [hsplit]
    show (hexRun 8 (s.take 8) && hexRun 4 ((s.drop 8).take 4)
      && hexRun 4 ((s.drop 12).take 4) && hexRun 4 ((s.drop 16).take 4)
      && hexRun 12 ((s.drop 20).take 12)) = true
    simp [hexRun, hta, htb, htc, htd, hte, haa, hab, hac, had, hae]

/-- Concrete 32-hex-digit identifier for the C7 witness. -/
def hex32Sample : List Char := "1234567890abcdef1234567890abcdef".toList

theorem C7_witness :
    cleanDatabaseID hex32Sample = some (insertDashes hex32Sample) ∧
      isValidUUID (insertDashes hex32Sample) = true :=
  C7_hex32_normalized hex32Sample (by decide) (by decide)

/-- URL-like input whose path contains a dash before the trailing
segment, as Notion page URLs with a slug do. -/
def dashedURL : List Char :=
  "https://www.notion.so/my-db/1234567890abcdef1234567890abcdef".toList

/-- C8 counterexample: for this URL-like string with a 32-character
trailing segment, normalizing the whole string is NOT the same as
normalizing its trailing segment: the dash in the slug makes
`cleanDatabaseID` return the whole URL unchanged, while the trailing
segment alone normalizes to a dashed UUID. -/
theorem C8_counterexample :
    listContainsSeq notionSoKey dashedURL = true ∧
    32 ≤ (lastSegment dashedURL).length ∧
    cleanDatabaseID dashedURL ≠ cleanDatabaseID (lastSegment dashedURL) := by
  refine ⟨by decide, by decide, by decide⟩

/-- C8 (amended): extraction then normalization agrees with normalizing
the trailing segment directly, provided the URL-like string itself
contains no dash (otherwise the dash short-circuit returns it as is). -/
theorem C8_extract_commutes (url : List Char)
    (hurl : listContainsSeq notionSoKey url = true)
    (hnd : url.contains '-' = false)
    (hlen : 32 ≤ (lastSegment url).length) :
    cleanDatabaseID url = cleanDatabaseID (lastSegment url) := by
  have hdot : ('.' : Char) ∈ url :=
    mem_of_listContainsSeq notionSoKey '.' (by decide) url hurl
  have hhex : isHex32 url = false := isHex32_eq_false_of_mem url '.' hdot (by decide)
  have hseg := lastSegment_not_contains_slash url
  rw [cleanDatabaseID_eq url, if_neg (by rw [hnd]; simp), if_neg (by rw [hhex]; simp),
    if_pos hurl, if_pos hlen, cleanDatabaseID]
  rw [show (2 : Nat) = 1 + 1 from rfl, cleanDatabaseIDFuel_no_slash _ hseg 1,
    show (3 : Nat) = 2 + 1 from rfl, cleanDatabaseIDFuel_no_slash _ hseg 2]

/-- Dash-free URL-like input for the C8 witness. -/
def cleanURL : List Char :=
  "https://www.notion.so/1234567890abcdef1234567890abcdef".toList

theorem C8_witness :
    cleanDatabaseID cleanURL = cleanDatabaseID (lastSegment cleanURL) :=
  C8_extract_commutes cleanURL (by decide) (by decide) (by decide)

/-- Input on which the Go `cleanDatabaseID` recursion never reaches a
non-recursive case: it contains "notion.so", no dash, no slash, is not
32 hex digits, and is at least 32 characters long, so the recursive call
receives the argument unchanged. -/
def selfLoopID : List Char := "notion.soaaaaaaaaaaaaaaaaaaaaaaa".toList

/-- C9: refutation of termination.  On `selfLoopID`, no amount of fuel
makes the recursion of `cleanDatabaseID` return: the Go function
recurses forever (a stack overflow in practice). -/
theorem C9_divergence : ∀ n, cleanDatabaseIDFuel n selfLoopID = none := by
  intro n
  induction n with
  | zero => rfl
  | succ n ih =>
    rw [cleanDatabaseIDFuel_succ n selfLoopID, if_neg (by decide),
      if_neg (by decide), if_pos (by decide),
      show lastSegment selfLoopID = selfLoopID from by decide,
      if_pos (by decide)]
    exact ih

/-! ## Step equations for the conversion loop -/

theorem coerceField_isSome (t : PropertyConfigType) (v : JSONValue) :
    (coerceField t v).isSome = expectedMatch t v := by
  cases t <;> cases v <;> rfl

theorem coerceField_eq_none (t : PropertyConfigType) (v : JSONValue)
    (h : expectedMatch t v = false) : coerceField t v = none := by
  have hs := coerceField_isSome t v
  rw [h] at hs
  cases hc : coerceField t v with
  | none => rfl
  | some np =>
    rw [hc] at hs
    exact Bool.noConfusion hs

theorem convertLoop_cons_miss (schema : List (List Char × PropertyConfigType))
    (acc : List (List Char × NotionProperty)) (name : List Char)
    (v : JSONValue) (rest : List (List Char × JSONValue))
    (hl : lookupKey name schema = none) :
    convertLoop schema acc ((name, v) :: rest) = convertLoop schema acc rest := by
  show (match lookupKey name schema with
    | none => convertLoop schema acc rest
    | some cfg =>
      match coerceField cfg v with
      | none => convertLoop schema acc rest
      | some np => convertLoop schema (setProp acc name np) rest) =
    convertLoop schema acc rest
  rw [hl]

theorem convertLoop_cons_skip (schema : List (List Char × PropertyConfigType))
    (acc : List (List Char × NotionProperty)) (name : List Char)
    (v : JSONValue) (rest : List (List Char × JSONValue))
    (t : PropertyConfigType)
    (ht : lookupKey name schema = some t) (hc : coerceField t v = none) :
    convertLoop schema acc ((name, v) :: rest) = convertLoop schema acc rest := by
  show (match lookupKey name schema with
    | none => convertLoop schema acc rest
    | some cfg =>
      match coerceField cfg v with
      | none => convertLoop schema acc rest
      | some np => convertLoop schema (setProp acc name np) rest) =
    convertLoop schema acc rest
  rw [ht]
  show (match coerceField t v with
    | none => convertLoop schema acc rest
    | some np => convertLoop schema (setProp acc name np) rest) =
    convertLoop schema acc rest
  rw [hc]

theorem convertLoop_cons_set (schema : List (List Char × PropertyConfigType))
    (acc : List (List Char × NotionProperty)) (name : List Char)
    (v : JSONValue) (rest : List (List Char × JSONValue))
    (t : PropertyConfigType) (np : NotionProperty)
    (ht : lookupKey name schema = some t) (hc : coerceField t v = some np) :
    convertLoop schema acc ((name, v) :: rest) =
      convertLoop schema (setProp acc name np) rest := by
  show (match lookupKey name schema with
    | none => convertLoop schema acc rest
    | some cfg =>
      match coerceField cfg v with
      | none => convertLoop schema acc rest
      | some np2 => convertLoop schema (setProp acc name np2) rest) =
    convertLoop schema (setProp acc name np) rest
  rw [ht]
  show (match coerceField t v with
    | none => convertLoop schema acc rest
    | some np2 => convertLoop schema (setProp acc name np2) rest) =
    convertLoop schema (setProp acc name np) rest
  rw [hc]

theorem fieldProduces_eq (schema : List (List Char × PropertyConfigType))
    (name : List Char) (v : JSONValue) (t : PropertyConfigType)
    (ht : lookupKey name schema = some t) :
    fieldProduces schema (name, v) = (coerceField t v).isSome := by
  show (match lookupKey name schema with
    | none => false
    | some cfg => (coerceField cfg v).isSome) = (coerceField t v).isSome
  rw [ht]

theorem convertLoop_cons_of_not_produces
    (schema : List (List Char × PropertyConfigType))
    (acc : List (List Char × NotionProperty)) (name : List Char)
    (v : JSONValue) (rest : List (List Char × JSONValue))
    (h : fieldProduces schema (name, v) = false) :
    convertLoop schema acc ((name, v) :: rest) = convertLoop schema acc rest := by
  cases hl : lookupKey name schema with
  | none => exact convertLoop_cons_miss schema acc name v rest hl
  | some cfg =>
    have hfe := fieldProduces_eq schema name v cfg hl
    rw [h] at hfe
    cases hcf : coerceField cfg v with
    | none => exact convertLoop_cons_skip schema acc name v rest cfg hl hcf
    | some np =>
      rw [hcf] at hfe
      exact Bool.noConfusion hfe.symm

theorem nodup_middle_split {β : Type} (l1 l2 : List (List Char × β))
    (name : List Char) (v : β) (h : keysNodup (l1 ++ (name, v) :: l2)) :
    ¬name ∈ l1.map Prod.fst ∧ ¬name ∈ l2.map Prod.fst := by
  unfold keysNodup at h
  rw [List.map_append, List.map_cons, List.nodup_append] at h
  obtain ⟨h1, h2, hdisj⟩ := h
  rw [List.nodup_cons] at h2
  exact ⟨fun hm => hdisj hm (List.mem_cons_self _ _), h2.1⟩

/-- Shared skeleton for C1 and C3: a field of the nested field-map that
produces no coerced entry is dropped with no error and no entry under
its name in the result. -/
theorem convert_no_entry (raw : RawPageData) (schema : Database)
    (l1 l2 : List (List Char × JSONValue)) (name : List Char) (v : JSONValue)
    (hprops : lookupKey propertiesKey raw =
      some (JSONValue.obj (l1 ++ (name, v) :: l2)))
    (hnd : keysNodup (l1 ++ (name, v) :: l2))
    (hfp : fieldProduces schema.properties (name, v) = false) :
    (convertToNotionProperties raw schema).2 = none ∧
    lookupKey name (convertToNotionProperties raw schema).1.properties = none := by
  obtain ⟨hn1, hn2⟩ := nodup_middle_split l1 l2 name v hnd
  unfold convertToNotionProperties
  rw [hprops]
  refine ⟨rfl, ?_⟩
  show lookupKey name
    (convertLoop schema.properties [] (l1 ++ (name, v) :: l2)) = none
  rw [convertLoop_append schema.properties l1 ((name, v) :: l2) [],
    convertLoop_cons_of_not_produces schema.properties _ name v l2 hfp,
    convertLoop_lookup_not_mem schema.properties l2 name _ hn2,
    convertLoop_lookup_not_mem schema.properties l1 name [] hn1]
  rfl

theorem coerceField_eq_none_unsupported (t : PropertyConfigType) (v : JSONValue)
    (h : t ≠ .title ∧ t ≠ .richText ∧ t ≠ .number) : coerceField t v = none := by
  cases t
  case title => exact absurd rfl h.1
  case richText => exact absurd rfl h.2.1
  case number => exact absurd rfl h.2.2
  all_goals cases v <;> rfl

/-! ## Claims about the record coercer -/

/-- C1: a field whose column type is Title, RichText, or Number but whose
value has a mismatched JSON type is dropped (no entry under its name in
the coerced record), it increments the dropped-field count of the spec's
contract, and no error is raised. -/
theorem C1_mismatch_dropped (raw : RawPageData) (schema : Database)
    (l1 l2 : List (List Char × JSONValue)) (name : List Char) (v : JSONValue)
    (t : PropertyConfigType)
    (hprops : lookupKey propertiesKey raw =
      some (JSONValue.obj (l1 ++ (name, v) :: l2)))
    (hnd : keysNodup (l1 ++ (name, v) :: l2))
    (ht : lookupKey name schema.properties = some t)
    (httype : t = .title ∨ t = .richText ∨ t = .number)
    (hmm : expectedMatch t v = false) :
    (convertToNotionProperties raw schema).2 = none ∧
    lookupKey name (convertToNotionProperties raw schema).1.properties = none ∧
    droppedFieldCount schema.properties (l1 ++ (name, v) :: l2) =
      droppedFieldCount schema.properties (l1 ++ l2) + 1 := by
  have hcoerce : coerceField t v = none := coerceField_eq_none t v hmm
  have hfp : fieldProduces schema.properties (name, v) = false := by
    rw [fieldProduces_eq schema.properties name v t ht, hcoerce]
    rfl
  obtain ⟨he, hnone⟩ := convert_no_entry raw schema l1 l2 name v hprops hnd hfp
  refine ⟨he, hnone, ?_⟩
  have hbf : (!fieldProduces schema.properties (name, v)) = true := by
    rw [hfp]
    rfl
  simp only [droppedFieldCount, List.filter_append, List.filter_cons, hbf,
    List.length_append, List.length_cons, if_true]
  omega

/-- C2: a field whose column type is Title, RichText, or Number and whose
value matches the expected JSON type yields exactly one entry in the
coerced record under the field's name, carrying the appropriately tagged
payload (rich-text runs with the string as content for Title/RichText,
the numeric value for Number), with no error. -/
theorem C2_match_coerced (raw : RawPageData) (schema : Database)
    (l1 l2 : List (List Char × JSONValue)) (name : List Char) (v : JSONValue)
    (t : PropertyConfigType)
    (hprops : lookupKey propertiesKey raw =
      some (JSONValue.obj (l1 ++ (name, v) :: l2)))
    (hnd : keysNodup (l1 ++ (name, v) :: l2))
    (ht : lookupKey name schema.properties = some t)
    (httype : t = .title ∨ t = .richText ∨ t = .number)
    (hmm : expectedMatch t v = true) :
    (convertToNotionProperties raw schema).2 = none ∧
    ∃ np, coerceField t v = some np ∧
      lookupKey name (convertToNotionProperties raw schema).1.properties = some np ∧
      countKey name (convertToNotionProperties raw schema).1.properties = 1 ∧
      (∀ s, v = .str s → t = .title → np = .title [⟨s⟩]) ∧
      (∀ s, v = .str s → t = .richText → np = .richText [⟨s⟩]) ∧
      (∀ x, v = .num x → t = .number → np = .number x) := by
  have hsome : (coerceField t v).isSome = true := by rw [coerceField_isSome, hmm]
  obtain ⟨np, hnp⟩ := Option.isSome_iff_exists.mp hsome
  obtain ⟨hn1, hn2⟩ := nodup_middle_split l1 l2 name v hnd
  have hlook : lookupKey name
      (convertLoop schema.properties [] (l1 ++ (name, v) :: l2)) = some np := by
    rw [convertLoop_append schema.properties l1 ((name, v) :: l2) [],
      convertLoop_cons_set schema.properties _ name v l2 t np ht hnp,
      convertLoop_lookup_not_mem schema.properties l2 name _ hn2,
      lookupKey_setProp, if_pos rfl]
  have hnodup : keysNodup
      (convertLoop schema.properties [] (l1 ++ (name, v) :: l2)) :=
    keysNodup_convertLoop schema.properties _ [] List.nodup_nil
  unfold convertToNotionProperties
  rw [hprops]
  refine ⟨rfl, np, hnp, hlook, countKey_eq_one_of_nodup name _ np hnodup hlook,
    ?_, ?_, ?_⟩
  · intro s hv htt
    subst hv
    subst htt
    rw [show coerceField .title (.str s) = some (.title [⟨s⟩]) from rfl] at hnp
    exact (Option.some.inj hnp).symm
  · intro s hv htt
    subst hv
    subst htt
    rw [show coerceField .richText (.str s) = some (.richText [⟨s⟩]) from rfl] at hnp
    exact (Option.some.inj hnp).symm
  · intro x hv htt
    subst hv
    subst htt
    rw [show coerceField .number (.num x) = some (.number x) from rfl] at hnp
    exact (Option.some.inj hnp).symm

/-- C3: a field whose column type is outside Title, RichText, and Number
is dropped unconditionally, whatever its value, with no error and no
entry under its name in the coerced record. -/
theorem C3_unsupported_dropped (raw : RawPageData) (schema : Database)
    (l1 l2 : List (List Char × JSONValue)) (name : List Char) (v : JSONValue)
    (t : PropertyConfigType)
    (hprops : lookupKey propertiesKey raw =
      some (JSONValue.obj (l1 ++ (name, v) :: l2)))
    (hnd : keysNodup (l1 ++ (name, v) :: l2))
    (ht : lookupKey name schema.properties = some t)
    (htype : t ≠ .title ∧ t ≠ .richText ∧ t ≠ .number) :
    (convertToNotionProperties raw schema).2 = none ∧
    lookupKey name (convertToNotionProperties raw schema).1.properties = none := by
  have hcoerce : coerceField t v = none := coerceField_eq_none_unsupported t v htype
  have hfp : fieldProduces schema.properties (name, v) = false := by
    rw [fieldProduces_eq schema.properties name v t ht, hcoerce]
    rfl
  exact convert_no_entry raw schema l1 l2 name v hprops hnd hfp

/-- C4: a raw record without a "properties" key, or whose "properties"
value is not an object, makes coercion fail with the malformed-record
error, and the returned record carries no entries. -/
theorem C4_malformed (raw : RawPageData) (schema : Database)
    (h : ∀ props, lookupKey propertiesKey raw ≠ some (JSONValue.obj props)) :
    (convertToNotionProperties raw schema).2 = some malformedMsg ∧
    (convertToNotionProperties raw schema).1.properties = [] := by
  unfold convertToNotionProperties
  cases hl : lookupKey propertiesKey raw with
  | none => exact ⟨rfl, rfl⟩
  | some v =>
    cases v with
    | obj props => exact absurd hl (h props)
    | str s => exact ⟨rfl, rfl⟩
    | num x => exact ⟨rfl, rfl⟩
    | boolean b => exact ⟨rfl, rfl⟩
    | null => exact ⟨rfl, rfl⟩
    | arr elems => exact ⟨rfl, rfl⟩

/-- C5: every key of the coerced record exists in the schema; fields of
the raw record absent from the schema are silently dropped and, whenever
the nested field-map is present, never cause an error. -/
theorem C5_keys_subset (raw : RawPageData) (schema : Database) :
    (∀ k np,
      lookupKey k (convertToNotionProperties raw schema).1.properties = some np →
      ∃ t, lookupKey k schema.properties = some t) ∧
    (∀ props, lookupKey propertiesKey raw = some (JSONValue.obj props) →
      (convertToNotionProperties raw schema).2 = none) := by
  constructor
  · intro k np h
    unfold convertToNotionProperties at h
    cases hl : lookupKey propertiesKey raw with
    | none =>
      rw [hl] at h
      simp [lookupKey] at h
    | some v =>
      cases v with
      | obj props =>
        rw [hl] at h
        rcases convertLoop_lookup_some schema.properties props k np [] h with
          ⟨np2, h2⟩ | ht
        · simp [lookupKey] at h2
        · exact ht
      | str s => rw [hl] at h; simp [lookupKey] at h
      | num x => rw [hl] at h; simp [lookupKey] at h
      | boolean b => rw [hl] at h; simp [lookupKey] at h
      | null => rw [hl] at h; simp [lookupKey] at h
      | arr elems => rw [hl] at h; simp [lookupKey] at h
  · intro props hp
    unfold convertToNotionProperties
    rw [hp]

/-- C10: coercion returns an error exactly when the raw record's
"properties" key is absent or its value is not an object; whenever the
nested field-map is an object, it returns no error regardless of field
values and column types. -/
theorem C10_error_iff (raw : RawPageData) (schema : Database) :
    (convertToNotionProperties raw schema).2 = none ↔
      ∃ props, lookupKey propertiesKey raw = some (JSONValue.obj props) := by
  unfold convertToNotionProperties
  cases hl : lookupKey propertiesKey raw with
  | none =>
    constructor
    · intro h
      exact Option.noConfusion h
    · rintro ⟨props, hp⟩
      exact Option.noConfusion hp
  | some v =>
    cases v
    case obj props => exact ⟨fun _ => ⟨props, rfl⟩, fun _ => rfl⟩
    all_goals
      constructor
      · intro h
        exact Option.noConfusion h
      · rintro ⟨props, hp⟩
        exact JSONValue.noConfusion (Option.some.inj hp)

/-! ## Claim about the insert pipeline -/

/-- C6: once flag validation, the identifier check, the credential
lookup, the file read/parse, and the schema fetch have succeeded, the
insert run exits 0 whatever the per-record submission outcomes, and
every converted record is attempted, in input order. -/
theorem C6_partial_failure_exit_zero (env : InsertEnv) (submitOk : Nat → Bool)
    (d : List Char) (rawData : List RawPageData) (db : Database)
    (hdb : env.dbID ≠ []) (hdf : env.dataFile ≠ [])
    (hclean : cleanDatabaseID env.dbID = some d)
    (huuid : isValidUUID d = true)
    (hkey : env.apiKeyFlag ≠ [] ∨ env.envKey ≠ [])
    (hparse : env.parsedData = some rawData)
    (hfetch : env.schemaFetch = some db) :
    insertRun env submitOk =
      some ⟨0, List.range (pagesOf db rawData).length,
        (submitLoop submitOk 0 (pagesOf db rawData)).1⟩ := by
  have hkey2 : (if env.apiKeyFlag = [] then env.envKey else env.apiKeyFlag) ≠ [] := by
    by_cases hf : env.apiKeyFlag = []
    · rw [if_pos hf]
      rcases hkey with h | h
      · exact absurd hf h
      · exact h
    · rw [if_neg hf]
      exact hf
  simp only [insertRun, hclean, hparse, hfetch]
  rw [if_neg (not_or.mpr ⟨hdb, hdf⟩), if_neg (by rw [huuid]; simp), if_neg hkey2,
    submitLoop_attempted submitOk (pagesOf db rawData) 0, List.range_eq_range']

/-! ## Concrete witnesses for the coercion and pipeline claims -/

/-- Raw record and schema for the C1 witness: a Number column receiving
a string value. -/
def c1raw : RawPageData :=
  [(propertiesKey, JSONValue.obj [("Age".toList, JSONValue.str "x".toList)])]

def c1schema : Database := ⟨[("Age".toList, PropertyConfigType.number)]⟩

theorem C1_witness :
    (convertToNotionProperties c1raw c1schema).2 = none ∧
    lookupKey "Age".toList
      (convertToNotionProperties c1raw c1schema).1.properties = none ∧
    droppedFieldCount c1schema.properties
        ([] ++ ("Age".toList, JSONValue.str "x".toList) :: []) =
      droppedFieldCount c1schema.properties ([] ++ []) + 1 :=
  C1_mismatch_dropped c1raw c1schema [] [] "Age".toList
    (JSONValue.str "x".toList) .number rfl (by decide) rfl
    (Or.inr (Or.inr rfl)) rfl

/-- Raw record and schema for the C2 witness: a Title column receiving a
string value. -/
def c2raw : RawPageData :=
  [(propertiesKey, JSONValue.obj [("Name".toList, JSONValue.str "A".toList)])]

def c2schema : Database := ⟨[("Name".toList, PropertyConfigType.title)]⟩

theorem C2_witness :
    (convertToNotionProperties c2raw c2schema).2 = none ∧
    ∃ np, coerceField .title (JSONValue.str "A".toList) = some np ∧
      lookupKey "Name".toList
        (convertToNotionProperties c2raw c2schema).1.properties = some np ∧
      countKey "Name".toList
        (convertToNotionProperties c2raw c2schema).1.properties = 1 ∧
      (∀ s, JSONValue.str "A".toList = .str s →
        PropertyConfigType.title = .title → np = .title [⟨s⟩]) ∧
      (∀ s, JSONValue.str "A".toList = .str s →
        PropertyConfigType.title = .richText → np = .richText [⟨s⟩]) ∧
      (∀ x, JSONValue.str "A".toList = .num x →
        PropertyConfigType.title = .number → np = .number x) :=
  C2_match_coerced c2raw c2schema [] [] "Name".toList
    (JSONValue.str "A".toList) .title rfl (by decide) rfl (Or.inl rfl) rfl

/-- Raw record and schema for the C3 witness: a Checkbox column, for
which no coercion is implemented, receiving a boolean value. -/
def c3raw : RawPageData :=
  [(propertiesKey, JSONValue.obj [("Done".toList, JSONValue.boolean true)])]

def c3schema : Database := ⟨[("Done".toList, PropertyConfigType.checkbox)]⟩

theorem C3_witness :
    (convertToNotionProperties c3raw c3schema).2 = none ∧
    lookupKey "Done".toList
      (convertToNotionProperties c3raw c3schema).1.properties = none :=
  C3_unsupported_dropped c3raw c3schema [] [] "Done".toList
    (JSONValue.boolean true) .checkbox rfl (by decide) rfl (by decide)

/-- Raw record for the C4 witness: the "properties" key holds a string,
not an object. -/
def c4raw : RawPageData := [(propertiesKey, JSONValue.str "x".toList)]

theorem C4_witness :
    (convertToNotionProperties c4raw ⟨[]⟩).2 = some malformedMsg ∧
    (convertToNotionProperties c4raw ⟨[]⟩).1.properties = [] :=
  C4_malformed c4raw ⟨[]⟩ fun props h =>
    JSONValue.noConfusion (Option.some.inj
      (show some (JSONValue.str "x".toList) = some (JSONValue.obj props) from h))

/-- Raw record and schema for the C5 witness. -/
def c5raw : RawPageData :=
  [(propertiesKey, JSONValue.obj [("Name".toList, JSONValue.str "A".toList)])]

def c5schema : Database := ⟨[("Name".toList, PropertyConfigType.title)]⟩

theorem C5_witness :
    (∃ t, lookupKey "Name".toList c5schema.properties = some t) ∧
    (convertToNotionProperties c5raw c5schema).2 = none :=
  ⟨(C5_keys_subset c5raw c5schema).1 "Name".toList
      (NotionProperty.title [⟨"A".toList⟩]) rfl,
    (C5_keys_subset c5raw c5schema).2
      [("Name".toList, JSONValue.str "A".toList)] rfl⟩

/-- Environment for the C6 witness: all validation steps succeed, two
records convert, and every submission fails. -/
def sampleSchema : Database := ⟨[("Name".toList, PropertyConfigType.title)]⟩

def sampleRaw : RawPageData :=
  [(propertiesKey, JSONValue.obj [("Name".toList, JSONValue.str "A".toList)])]

def sampleEnv : InsertEnv :=
  ⟨"1234567890abcdef1234567890abcdef".toList, "data.json".toList,
    "secret".toList, [], some [sampleRaw, sampleRaw], some sampleSchema⟩

theorem C6_witness :
    insertRun sampleEnv (fun _ => false) =
      some ⟨0, List.range (pagesOf sampleSchema [sampleRaw, sampleRaw]).length,
        (submitLoop (fun _ => false) 0
          (pagesOf sampleSchema [sampleRaw, sampleRaw])).1⟩ :=
  C6_partial_failure_exit_zero sampleEnv (fun _ => false)
    (insertDashes "1234567890abcdef1234567890abcdef".toList)
    [sampleRaw, sampleRaw] sampleSchema
    (by decide) (by decide) rfl rfl (Or.inl (by decide)) rfl rfl

end Gotion
